import Mathlib

/-!
Shallow embedding of `src/pair_scanner.py` (`analyze_ticker_pairs` and the
pure analysis pipeline it runs per ticker pair).

Modelling conventions:
* Prices, spread values and dates are exact rationals / naturals.  The Python
  code computes with IEEE floats; we idealise float arithmetic as exact
  arithmetic, which is the standard shallow-embedding choice here.
* A pandas NaN is modelled as `Option.none`.  Quantities that the code can
  turn into NaN (`correlation` for fewer than 2 aligned points or a constant
  side, `spread_std`/`z_score` for a single point, and everything downstream
  of them) are `Option`-valued, with `none` propagating exactly where the
  Python NaN propagates.
* `std`, `z_score` and `correlation` involve a square root, hence are
  irrational in general.  The pipeline carries their *signed squares*
  (`v * |v|`, an order- and sign-faithful rational representation) and the
  real value is recovered by the interpretation `ssqrt` (so for example the
  stored rep of `z_score` is `z * |z| ∈ ℚ`, and `ssqrt` of it is `z ∈ ℝ`).
* A weekly price series is a list of `(week index, adjusted close)` pairs in
  strictly increasing date order (missing / NaN weeks are simply absent,
  matching what `dropna` leaves behind).
-/

namespace PairScanner

/-- A weekly adjusted-close series: (week index, value), strictly increasing
by week index.  This is the output of `resample("W").last()` with NaN rows
considered absent (they are dropped by `aligned.dropna` anyway). -/
abbrev Series := List (ℕ × ℚ)

/-- Lines 71-76: `pd.concat([data1_weekly, data2_weekly], axis=1)` followed by
`dropna` keeps exactly the dates present in both series, in chronological
order.  For date-sorted inputs this is the sorted merge join below. -/
def alignPair : Series → Series → List (ℕ × ℚ × ℚ)
  | [], _ => []
  | _ :: _, [] => []
  | (d1, v1) :: t1, (d2, v2) :: t2 =>
    if d1 = d2 then (d1, v1, v2) :: alignPair t1 t2
    else if d1 < d2 then alignPair t1 ((d2, v2) :: t2)
    else alignPair ((d1, v1) :: t1) t2
  termination_by s1 s2 => s1.length + s2.length

/-- Line 83: `spread = aligned[t1] - aligned[t2]`. -/
def spreadOf (al : List (ℕ × ℚ × ℚ)) : List ℚ := al.map (fun p => p.2.1 - p.2.2)

/-- Line 99: first aligned column. -/
def series1Of (al : List (ℕ × ℚ × ℚ)) : List ℚ := al.map (fun p => p.2.1)

/-- Line 100: second aligned column. -/
def series2Of (al : List (ℕ × ℚ × ℚ)) : List ℚ := al.map (fun p => p.2.2)

/-- Line 94: `spread_df["Close"].max()` (junk value 0 on `[]`; the pipeline
only evaluates it on a non-empty spread, guarded by line 78). -/
def listMax : List ℚ → ℚ
  | [] => 0
  | [x] => x
  | x :: y :: l => max x (listMax (y :: l))

/-- Line 95: `spread_df["Close"].min()`. -/
def listMin : List ℚ → ℚ
  | [] => 0
  | [x] => x
  | x :: y :: l => min x (listMin (y :: l))

/-- Line 96: `spread_df["Close"].iloc[-1]` (last element; junk 0 on `[]`). -/
def listLast : List ℚ → ℚ
  | [] => 0
  | [x] => x
  | _ :: y :: l => listLast (y :: l)

/-- Line 104: `spread.mean()` (junk 0 on `[]`, never reached). -/
def meanOf (l : List ℚ) : ℚ := l.sum / l.length

/-- Sum of squared deviations from the mean, the numerator of the sample
variance used by `spread.std()`. -/
def sqDevSum (l : List ℚ) : ℚ := (l.map (fun x => (x - meanOf l) ^ 2)).sum

/-- Line 105: the square of `spread.std()` (pandas sample std, ddof = 1).
pandas returns NaN for fewer than two observations, hence `none`. -/
def sampleVar (l : List ℚ) : Option ℚ :=
  if l.length ≤ 1 then none else some (sqDevSum l / ((l.length : ℚ) - 1))

/-- Numerator of the Pearson correlation of two equal-length columns. -/
def corrNum (xs ys : List ℚ) : ℚ :=
  ((xs.zip ys).map (fun p => (p.1 - meanOf xs) * (p.2 - meanOf ys))).sum

/-- Square of the denominator of the Pearson correlation. -/
def corrDen2 (xs ys : List ℚ) : ℚ := sqDevSum xs * sqDevSum ys

/-- Line 101: `series1.corr(series2) if len(series1) > 1 else np.nan`,
as the signed square of the Pearson coefficient.  `none` is the NaN that the
code produces for fewer than 2 points (explicit guard) or that pandas
produces when either column is constant (0/0). -/
def corrSqOf (xs ys : List ℚ) : Option ℚ :=
  if xs.length ≤ 1 then none
  else if corrDen2 xs ys = 0 then none
  else some (corrNum xs ys * |corrNum xs ys| / corrDen2 xs ys)

/-- Line 106: `z_score = (current - spread_mean) / spread_std if
spread_std != 0 else 0.0`, as the signed square of the z-score.
For a single point `spread.std()` is NaN; Python's `NaN != 0` is `True`, so
the division runs and yields `0.0 / NaN = NaN`, hence `none`.
For `std == 0` (all values equal, length ≥ 2) the guard yields exactly 0. -/
def zSqOf (spread : List ℚ) : Option ℚ :=
  match sampleVar spread with
  | none => none
  | some v =>
    if v = 0 then some 0
    else some ((listLast spread - meanOf spread) * |listLast spread - meanOf spread| / v)

/-- Interpretation of a signed-square representation: the real `v` with
`v * |v| = q`. -/
noncomputable def ssqrt (q : ℚ) : ℝ :=
  if q < 0 then -Real.sqrt (-(q : ℝ)) else Real.sqrt (q : ℝ)

/-- The real z-score of a spread (`none` = NaN). -/
noncomputable def zValOf (spread : List ℚ) : Option ℝ := (zSqOf spread).map ssqrt

/-- The real Pearson correlation of the two aligned columns (`none` = NaN). -/
noncomputable def corrValOf (xs ys : List ℚ) : Option ℝ := (corrSqOf xs ys).map ssqrt

/-- Lines 109-110: `p_reverse = 1 - abs(z_score) / 3` and
`mean_rev_prob = float(max(min(p_reverse, 1), 0))`.  With `z_score = NaN`,
Python's `min(NaN, 1)` and `max(NaN, 0)` both return NaN (the comparison is
False and the first argument is kept), so NaN propagates: `Option.map`. -/
noncomputable def mrpValOf (spread : List ℚ) : Option ℝ :=
  (zValOf spread).map (fun z => max (min (1 - |z| / 3) 1) 0)

/-- Lines 113-117: `total_score = abs(correlation) * 2 + mean_rev_prob * 3 +
abs(z_score) * 1`, from the two stored representations.  NaN in either input
makes the whole sum NaN. -/
noncomputable def scoreValOf (corrSq zSq : Option ℚ) : Option ℝ :=
  match corrSq, zSq with
  | some c, some z =>
    some (|ssqrt c| * 2 + max (min (1 - |ssqrt z| / 3) 1) 0 * 3 + |ssqrt z| * 1)
  | _, _ => none

/-- Line 125 string constant. -/
def maxLabel : String := "Max level"

/-- Line 131 string constant. -/
def minLabel : String := "Min level"

/-- The record appended to `pair_scores` (lines 146-160), restricted to the
analysis fields (the formatted message and the spread dataframe are
presentation data).  `corrSq` / `zSq` are the signed-square representations
of the stored `correlation` / `z_score` floats; `total_score` and
`mean_reversion_prob` are recovered from them by `scoreValOf` / `mrpValOf`.
`longPick` / `shortPick` record the tickers appended to `long_positions` /
`short_positions` in the same branch (lines 128-129 / 134-135). -/
structure PairSignal where
  ticker1 : String
  ticker2 : String
  signalType : String
  corrSq : Option ℚ
  zSq : Option ℚ
  risk : ℚ
  reward : ℚ
  longPick : String
  shortPick : String
  deriving Repr, DecidableEq

/-- The real total score of a recorded signal (`none` = NaN). -/
noncomputable def scoreVal (s : PairSignal) : Option ℝ := scoreValOf s.corrSq s.zSq

/-- Line 120: `is_max = (highest - current) <= 0.05 * abs(highest)`. -/
def isMax (highest current : ℚ) : Bool := decide (highest - current ≤ 5 / 100 * |highest|)

/-- Line 121: `is_min = (current - lowest) <= 0.05 * abs(lowest)`. -/
def isMin (lowest current : ℚ) : Bool := decide (current - lowest ≤ 5 / 100 * |lowest|)

/-- Lines 123-160: `if is_max or is_min: if is_max: ... else: ...`, building
the recorded signal, or no signal when neither threshold holds. -/
def classify (t1 t2 : String) (highest lowest current : ℚ)
    (corrSq zSq : Option ℚ) : Option PairSignal :=
  if isMax highest current then
    some { ticker1 := t1, ticker2 := t2, signalType := maxLabel
           corrSq := corrSq, zSq := zSq
           risk := highest - current, reward := current - lowest
           longPick := t2, shortPick := t1 }
  else if isMin lowest current then
    some { ticker1 := t1, ticker2 := t2, signalType := minLabel
           corrSq := corrSq, zSq := zSq
           risk := current - lowest, reward := highest - current
           longPick := t1, shortPick := t2 }
  else none

/-- One loop body of lines 60-160 after fetching: align (skip on empty
intersection, line 78), build the spread, compute statistics, classify. -/
def analyzePair (t1 t2 : String) (s1 s2 : Series) : Option PairSignal :=
  let al := alignPair s1 s2
  if al.isEmpty then none
  else
    let spread := spreadOf al
    classify t1 t2 (listMax spread) (listMin spread) (listLast spread)
      (corrSqOf (series1Of al) (series2Of al)) (zSqOf spread)

/-- Line 60: `itertools.combinations(tickers, 2)` iteration order. -/
def combinations {α : Type} : List α → List (α × α)
  | [] => []
  | x :: xs => xs.map (fun y => (x, y)) ++ combinations xs

/-- The per-ticker fetch result: `none` models `fetch_ticker_data` returning
`None` (no data / fetch error), `some s` the weekly resampled series. -/
abbrev FetchResult := String × Option Series

/-- Lines 60-160: the discovery-ordered list of recorded signals
(`pair_scores` before the final sort).  Pairs with a missing side (line 64)
or an empty aligned intersection are skipped. -/
def scanPairs (data : List FetchResult) : List PairSignal :=
  (combinations data).filterMap (fun pr =>
    match pr.1.2, pr.2.2 with
    | some s1, some s2 => analyzePair pr.1.1 pr.2.1 s1 s2
    | _, _ => none)

/-- Stable insertion step: `x` is placed after every element strictly
greater than it, before the first element not greater (ties keep the earlier
discovered element first). -/
def insertDesc {α : Type} (gt : α → α → Prop) (dec : ∀ x y, Decidable (gt x y))
    (x : α) : List α → List α
  | [] => [x]
  | y :: l => @ite _ (gt y x) (dec y x) (y :: insertDesc gt dec x l) (x :: y :: l)

/-- Stable descending sort (the semantics of CPython's stable
`list.sort(key=..., reverse=True)`): right fold of stable insertion. -/
def sortDesc {α : Type} (gt : α → α → Prop) (dec : ∀ x y, Decidable (gt x y))
    (l : List α) : List α := l.foldr (insertDesc gt dec) []

/-- Strict comparison of stored total scores: defined (non-NaN) on both
sides and strictly greater.  A NaN compares false either way, as in Python. -/
def sortGT (x y : PairSignal) : Prop :=
  ∃ a b, scoreVal x = some a ∧ scoreVal y = some b ∧ b < a

/-- Non-strict descending score relation (used to state sortedness). -/
def scoreGE (x y : PairSignal) : Prop :=
  ∃ a b, scoreVal x = some a ∧ scoreVal y = some b ∧ b ≤ a

/-- Line 163: `pair_scores.sort(key=lambda x: x["total_score"],
reverse=True)` — stable descending sort by total score. -/
noncomputable def rankSignals (l : List PairSignal) : List PairSignal :=
  sortDesc sortGT (fun _ _ => Classical.propDecidable _) l

/-- The sublist of signals whose total score equals `s` (in order).  Used to
state sort stability: equal-score signals keep their relative order. -/
noncomputable def filterByScore (s : ℝ) (l : List PairSignal) : List PairSignal :=
  l.filter (fun x => decide (scoreVal x = some s))

/-- Lines 167-168: `Counter(positions)` as an association list of
(ticker, count); iteration order is irrelevant to the claims (it is sorted
right after). -/
def tally (l : List String) : List (String × ℕ) :=
  l.dedup.map (fun t => (t, l.count t))

/-- Lines 170-171 sort key: `key=lambda x: (-x[1], x[0])` ascending, i.e.
count descending, ticker ascending on ties.  `tallyGT a b` says `a` must
come strictly before `b`. -/
def tallyGT (a b : String × ℕ) : Prop := b.2 < a.2 ∨ (a.2 = b.2 ∧ a.1 < b.1)

instance : ∀ a b : String × ℕ, Decidable (tallyGT a b) := fun a b => by
  unfold tallyGT; infer_instance

/-- Lines 170-171: the sorted tallies. -/
def sortTally (l : List (String × ℕ)) : List (String × ℕ) :=
  sortDesc tallyGT (fun _ _ => inferInstance) l

/-- The structured result object (lines 203-208, analysis fields). -/
structure AnalysisResult where
  pairSignals : List PairSignal
  longs : List (String × ℕ)
  shorts : List (String × ℕ)

/-- `analyze_ticker_pairs`, lines 56-208, restricted to the analysis core:
discovery scan, score-ranked signal list, sorted long/short tallies. -/
noncomputable def analyzeTickerPairs (data : List FetchResult) : AnalysisResult :=
  let sigs := scanPairs data
  { pairSignals := rankSignals sigs
    longs := sortTally (tally (sigs.map (fun s => s.longPick)))
    shorts := sortTally (tally (sigs.map (fun s => s.shortPick))) }

/-! ### Concrete inputs used by witnesses and counterexamples -/

/-- Ticker constant. -/
def tkA : String := "A"

/-- Ticker constant. -/
def tkB : String := "B"

/-- Two-week series, rising. -/
def wP : Series := [(0, 10), (1, 12)]

/-- Two-week series, falling. -/
def wQ : Series := [(0, 9), (1, 8)]

/-- One-week series. -/
def wR : Series := [(0, 10)]

/-- One-week series overlapping `wR` on a single date. -/
def wS : Series := [(0, 7)]

/-! ### Basic facts about the spread statistics -/

theorem listLast_le_listMax (l : List ℚ) (h : l ≠ []) : listLast l ≤ listMax l := by
  induction l with
  | nil => exact absurd rfl h
  | cons x t ih =>
    cases t with
    | nil => simp [listLast, listMax]
    | cons y t' =>
      have hle := ih (by simp)
      simp only [listLast, listMax]
      exact le_trans hle (le_max_right _ _)

theorem listMin_le_listLast (l : List ℚ) (h : l ≠ []) : listMin l ≤ listLast l := by
  induction l with
  | nil => exact absurd rfl h
  | cons x t ih =>
    cases t with
    | nil => simp [listLast, listMin]
    | cons y t' =>
      have hle := ih (by simp)
      simp only [listLast, listMin]
      exact le_trans (min_le_right _ _) hle

theorem spreadOf_ne_nil {al : List (ℕ × ℚ × ℚ)} (h : al ≠ []) : spreadOf al ≠ [] :=
  fun hc => h (List.map_eq_nil_iff.mp hc)

/-! ### Classifier branch lemmas (lines 119-135) -/

theorem classify_of_isMax {t1 t2 : String} {hi lo cu : ℚ} {cs zs : Option ℚ}
    (h : hi - cu ≤ 5 / 100 * |hi|) :
    classify t1 t2 hi lo cu cs zs =
      some ⟨t1, t2, maxLabel, cs, zs, hi - cu, cu - lo, t2, t1⟩ := by
  simp [classify, isMax, h]

theorem classify_of_isMin {t1 t2 : String} {hi lo cu : ℚ} {cs zs : Option ℚ}
    (h1 : ¬(hi - cu ≤ 5 / 100 * |hi|)) (h2 : cu - lo ≤ 5 / 100 * |lo|) :
    classify t1 t2 hi lo cu cs zs =
      some ⟨t1, t2, minLabel, cs, zs, cu - lo, hi - cu, t1, t2⟩ := by
  simp [classify, isMax, isMin, h1, h2]

theorem classify_of_neither {t1 t2 : String} {hi lo cu : ℚ} {cs zs : Option ℚ}
    (h1 : ¬(hi - cu ≤ 5 / 100 * |hi|)) (h2 : ¬(cu - lo ≤ 5 / 100 * |lo|)) :
    classify t1 t2 hi lo cu cs zs = none := by
  simp [classify, isMax, isMin, h1, h2]

theorem classify_eq_some_cases {t1 t2 : String} {hi lo cu : ℚ} {cs zs : Option ℚ}
    {sig : PairSignal} (h : classify t1 t2 hi lo cu cs zs = some sig) :
    (sig.risk = hi - cu ∧ sig.reward = cu - lo) ∨
    (sig.risk = cu - lo ∧ sig.reward = hi - cu) := by
  unfold classify at h
  split at h
  · simp only [Option.some.injEq] at h
    subst h
    exact Or.inl ⟨rfl, rfl⟩
  · split at h
    · simp only [Option.some.injEq] at h
      subst h
      exact Or.inr ⟨rfl, rfl⟩
    · exact absurd h (by simp)

/-! ### Claim theorems -/

/-- C3: for every analyzed pair's statistics (highest, lowest, current): if
`is_max := (highest - current) ≤ 0.05 * |highest|` holds, the classifier
emits the AtMax signal ("Max level"), long the second instrument, short the
first, with risk = highest - current and reward = current - lowest; if only
`is_min := (current - lowest) ≤ 0.05 * |lowest|` holds, it emits the AtMin
signal ("Min level"), long the first, short the second, with risk =
current - lowest and reward = highest - current; if neither holds, no signal
is produced for the pair. -/
theorem c3_classifier_cases (t1 t2 : String) (hi lo cu : ℚ) (cs zs : Option ℚ) :
    (hi - cu ≤ 5 / 100 * |hi| →
      classify t1 t2 hi lo cu cs zs =
        some ⟨t1, t2, maxLabel, cs, zs, hi - cu, cu - lo, t2, t1⟩) ∧
    (¬(hi - cu ≤ 5 / 100 * |hi|) → cu - lo ≤ 5 / 100 * |lo| →
      classify t1 t2 hi lo cu cs zs =
        some ⟨t1, t2, minLabel, cs, zs, cu - lo, hi - cu, t1, t2⟩) ∧
    (¬(hi - cu ≤ 5 / 100 * |hi|) → ¬(cu - lo ≤ 5 / 100 * |lo|) →
      classify t1 t2 hi lo cu cs zs = none) :=
  ⟨fun h1 => classify_of_isMax h1,
   fun h1 h2 => classify_of_isMin h1 h2,
   fun h1 h2 => classify_of_neither h1 h2⟩

theorem c3_classifier_cases_witness :
    classify tkA tkB 10 0 10 none none =
      some ⟨tkA, tkB, maxLabel, none, none, 10 - 10, 10 - 0, tkB, tkA⟩ ∧
    classify tkA tkB 10 0 0 none none =
      some ⟨tkA, tkB, minLabel, none, none, 0 - 0, 10 - 0, tkA, tkB⟩ ∧
    classify tkA tkB 10 0 5 none none = none :=
  ⟨(c3_classifier_cases tkA tkB 10 0 10 none none).1 (by norm_num),
   (c3_classifier_cases tkA tkB 10 0 0 none none).2.1 (by norm_num) (by norm_num),
   (c3_classifier_cases tkA tkB 10 0 5 none none).2.2 (by norm_num) (by norm_num)⟩

/-- C4: whenever both `is_max` and `is_min` hold simultaneously (e.g. a flat
or single-point spread), the classification resolves to AtMax ("Max level",
long the second instrument, short the first), never AtMin. -/
theorem c4_both_thresholds_atmax (t1 t2 : String) (hi lo cu : ℚ) (cs zs : Option ℚ)
    (h1 : hi - cu ≤ 5 / 100 * |hi|) (_h2 : cu - lo ≤ 5 / 100 * |lo|) :
    classify t1 t2 hi lo cu cs zs =
      some ⟨t1, t2, maxLabel, cs, zs, hi - cu, cu - lo, t2, t1⟩ :=
  classify_of_isMax h1

theorem c4_both_thresholds_atmax_witness :
    classify tkA tkB 7 7 7 none none =
      some ⟨tkA, tkB, maxLabel, none, none, 7 - 7, 7 - 7, tkB, tkA⟩ :=
  c4_both_thresholds_atmax tkA tkB 7 7 7 none none (by norm_num) (by norm_num)

/-- C9: every emitted PairSignal satisfies risk + reward = highest - lowest
(the full historical range of the spread); risk and reward are each
non-negative and bounded above by that range. -/
theorem c9_risk_reward_partition (t1 t2 : String) (s1 s2 : Series) (sig : PairSignal)
    (hs : analyzePair t1 t2 s1 s2 = some sig) :
    sig.risk + sig.reward =
      listMax (spreadOf (alignPair s1 s2)) - listMin (spreadOf (alignPair s1 s2)) ∧
    0 ≤ sig.risk ∧ 0 ≤ sig.reward ∧
    sig.risk ≤ listMax (spreadOf (alignPair s1 s2)) - listMin (spreadOf (alignPair s1 s2)) ∧
    sig.reward ≤ listMax (spreadOf (alignPair s1 s2)) - listMin (spreadOf (alignPair s1 s2)) := by
  by_cases hnil : alignPair s1 s2 = []
  · simp [analyzePair, hnil] at hs
  · have hemp : (alignPair s1 s2).isEmpty = false := by
      simpa [List.isEmpty_iff] using hnil
    simp only [analyzePair, hemp, Bool.false_eq_true, if_false] at hs
    have hspne : spreadOf (alignPair s1 s2) ≠ [] := spreadOf_ne_nil hnil
    have h1 := listMin_le_listLast _ hspne
    have h2 := listLast_le_listMax _ hspne
    rcases classify_eq_some_cases hs with ⟨hr, hw⟩ | ⟨hr, hw⟩ <;>
      refine ⟨?_, ?_, ?_, ?_, ?_⟩ <;> simp only [hr, hw] <;> linarith

theorem c9_risk_reward_partition_witness :
    (∃ sig, analyzePair tkA tkB wP wQ = some sig ∧
      sig.risk + sig.reward =
        listMax (spreadOf (alignPair wP wQ)) - listMin (spreadOf (alignPair wP wQ)) ∧
      0 ≤ sig.risk ∧ 0 ≤ sig.reward ∧
      sig.risk ≤ listMax (spreadOf (alignPair wP wQ)) - listMin (spreadOf (alignPair wP wQ)) ∧
      sig.reward ≤ listMax (spreadOf (alignPair wP wQ)) - listMin (spreadOf (alignPair wP wQ))) := by
  have hs : analyzePair tkA tkB wP wQ =
      some ⟨tkA, tkB, maxLabel, some (-1), some (1 / 2), 0, 3, tkB, tkA⟩ := by
    norm_num [analyzePair, alignPair, wP, wQ, spreadOf, classify, isMax, isMin,
      corrSqOf, zSqOf, sampleVar, meanOf, sqDevSum, corrNum, corrDen2,
      listMax, listMin, listLast, series1Of, series2Of, abs_of_pos, abs_of_nonneg]
  exact ⟨_, hs, c9_risk_reward_partition tkA tkB wP wQ _ hs⟩

/-- Shared helper: when the current (last) spread value equals the historical
maximum, `is_max` holds (`0 ≤ 0.05 * |highest|`), so the pair is classified
AtMax with the stated fields. -/
theorem atMax_of_current_eq_max (t1 t2 : String) (s1 s2 : Series)
    (hnil : alignPair s1 s2 ≠ [])
    (hc : listLast (spreadOf (alignPair s1 s2)) = listMax (spreadOf (alignPair s1 s2))) :
    analyzePair t1 t2 s1 s2 =
      some ⟨t1, t2, maxLabel,
        corrSqOf (series1Of (alignPair s1 s2)) (series2Of (alignPair s1 s2)),
        zSqOf (spreadOf (alignPair s1 s2)),
        listMax (spreadOf (alignPair s1 s2)) - listLast (spreadOf (alignPair s1 s2)),
        listLast (spreadOf (alignPair s1 s2)) - listMin (spreadOf (alignPair s1 s2)),
        t2, t1⟩ := by
  have hemp : (alignPair s1 s2).isEmpty = false := by
    simpa [List.isEmpty_iff] using hnil
  have hM : listMax (spreadOf (alignPair s1 s2)) - listLast (spreadOf (alignPair s1 s2)) ≤
      5 / 100 * |listMax (spreadOf (alignPair s1 s2))| := by
    rw [hc, sub_self]
    positivity
  simp only [analyzePair, hemp, Bool.false_eq_true, if_false]
  exact classify_of_isMax hM

/-- C10: a pair whose current spread value equals its historical maximum
always produces a signal, classified AtMax with risk = 0 (long the second
instrument, short the first); in particular a pair whose aligned
intersection is a single date always produces an AtMax signal with risk = 0
and reward = 0. -/
theorem c10_current_at_max_signal (t1 t2 : String) (s1 s2 : Series) :
    (alignPair s1 s2 ≠ [] →
      listLast (spreadOf (alignPair s1 s2)) = listMax (spreadOf (alignPair s1 s2)) →
      ∃ sig, analyzePair t1 t2 s1 s2 = some sig ∧ sig.signalType = maxLabel ∧
        sig.risk = 0 ∧ sig.longPick = t2 ∧ sig.shortPick = t1) ∧
    (∀ d v1 v2, alignPair s1 s2 = [(d, v1, v2)] →
      ∃ sig, analyzePair t1 t2 s1 s2 = some sig ∧ sig.signalType = maxLabel ∧
        sig.risk = 0 ∧ sig.reward = 0 ∧ sig.longPick = t2 ∧ sig.shortPick = t1) := by
  constructor
  · intro hnil hc
    refine ⟨_, atMax_of_current_eq_max t1 t2 s1 s2 hnil hc, rfl, ?_, rfl, rfl⟩
    rw [hc]
    exact sub_self _
  · intro d v1 v2 hal
    have hnil : alignPair s1 s2 ≠ [] := by rw [hal]; simp
    have hsp : spreadOf (alignPair s1 s2) = [v1 - v2] := by rw [hal]; rfl
    have hc : listLast (spreadOf (alignPair s1 s2)) = listMax (spreadOf (alignPair s1 s2)) := by
      rw [hsp]
      simp [listLast, listMax]
    refine ⟨_, atMax_of_current_eq_max t1 t2 s1 s2 hnil hc, rfl, ?_, ?_, rfl, rfl⟩
    · rw [hc]
      exact sub_self _
    · rw [hsp]
      simp [listLast, listMin]

theorem c10_current_at_max_signal_witness :
    (∃ sig, analyzePair tkA tkB wR wS = some sig ∧ sig.signalType = maxLabel ∧
      sig.risk = 0 ∧ sig.reward = 0 ∧ sig.longPick = tkB ∧ sig.shortPick = tkA) :=
  (c10_current_at_max_signal tkA tkB wR wS).2 0 10 7 (by norm_num [alignPair, wR, wS])

/-! ### C2: the zero-std guard -/

theorem list_sum_const {l : List ℚ} {c : ℚ} (h : ∀ x ∈ l, x = c) :
    l.sum = l.length * c := by
  induction l with
  | nil => simp
  | cons x t ih =>
    have hx : x = c := h x (by simp)
    have ht : ∀ y ∈ t, y = c := fun y hy => h y (by simp [hy])
    simp [ih ht, hx]
    ring

theorem meanOf_const {l : List ℚ} {c : ℚ} (hne : l ≠ []) (h : ∀ x ∈ l, x = c) :
    meanOf l = c := by
  have hlen : (l.length : ℚ) ≠ 0 :=
    Nat.cast_ne_zero.mpr (fun h0 => hne (List.length_eq_zero.mp h0))
  unfold meanOf
  rw [list_sum_const h]
  field_simp

theorem sqDevSum_const {l : List ℚ} {c : ℚ} (hne : l ≠ []) (h : ∀ x ∈ l, x = c) :
    sqDevSum l = 0 := by
  unfold sqDevSum
  apply List.sum_eq_zero
  intro y hy
  simp only [List.mem_map] at hy
  obtain ⟨x, hx, rfl⟩ := hy
  rw [h x hx, meanOf_const hne h]
  simp

theorem ssqrt_zero : ssqrt 0 = 0 := by
  simp [ssqrt]

/-- C2 (amended): for every spread series of length at least 2 in which all
values are equal, the z-score is exactly 0 (the zero-division guard fires:
the sample std is exactly 0).  The original claim also covered length-1
series, where the code instead produces NaN (see the counterexample). -/
theorem c2_zero_std_guard (l : List ℚ) (c : ℚ) (hlen : 2 ≤ l.length)
    (hall : ∀ x ∈ l, x = c) : zSqOf l = some 0 ∧ zValOf l = some 0 := by
  have hne : l ≠ [] := by
    intro h
    rw [h] at hlen
    simp at hlen
  have h1 : ¬ l.length ≤ 1 := by omega
  have hv : sampleVar l = some 0 := by
    unfold sampleVar
    simp [h1, sqDevSum_const hne hall]
  have hz : zSqOf l = some 0 := by
    unfold zSqOf
    rw [hv]
    simp
  exact ⟨hz, by simp [zValOf, hz, ssqrt_zero]⟩

theorem c2_zero_std_guard_witness :
    (2 ≤ ([3, 3] : List ℚ).length) ∧ zSqOf [3, 3] = some 0 ∧ zValOf [3, 3] = some 0 :=
  ⟨by decide, c2_zero_std_guard [3, 3] 3 (by decide) (by norm_num)⟩

/-- C2 counterexample: a length-1 spread series (all of whose values are
trivially equal) has a NaN z-score, not 0: pandas' sample std of one point
is NaN, Python's `NaN != 0` is True, and `0.0 / NaN` is NaN.  `none` models
that NaN, refuting "z_score equals exactly 0.0 ... including a series of
length 1". -/
theorem c2_single_point_nan : zSqOf [5] = none ∧ zValOf [5] = none :=
  ⟨rfl, rfl⟩

/-! ### C8: mean-reversion probability -/

/-- C8 (amended): for every analyzed spread with at least 2 aligned points
the z-score is a (defined) real and mean_reversion_prob equals
clamp(1 - |z|/3, 0, 1), which lies in [0, 1].  The original claim's "always"
also covered single-point spreads, where mean_rev_prob is NaN (see the
counterexample). -/
theorem c8_mrp_clamp_unit_interval (sp : List ℚ) (hlen : 2 ≤ sp.length) :
    ∃ z : ℝ, zValOf sp = some z ∧
      mrpValOf sp = some (max (min (1 - |z| / 3) 1) 0) ∧
      0 ≤ max (min (1 - |z| / 3) 1) 0 ∧ max (min (1 - |z| / 3) 1) 0 ≤ 1 := by
  have h1 : ¬ sp.length ≤ 1 := by omega
  have hq : ∃ q, zSqOf sp = some q := by
    unfold zSqOf sampleVar
    simp only [h1, if_false]
    split
    · exact ⟨0, rfl⟩
    · exact ⟨_, rfl⟩
  obtain ⟨q, hq⟩ := hq
  exact ⟨ssqrt q, by simp [zValOf, hq], by simp [mrpValOf, zValOf, hq],
    le_max_right _ _, max_le (le_trans (min_le_right _ _) le_rfl) zero_le_one⟩

theorem c8_mrp_clamp_unit_interval_witness :
    (2 ≤ ([0, 1] : List ℚ).length) ∧
    (∃ z : ℝ, zValOf [0, 1] = some z ∧
      mrpValOf [0, 1] = some (max (min (1 - |z| / 3) 1) 0) ∧
      0 ≤ max (min (1 - |z| / 3) 1) 0 ∧ max (min (1 - |z| / 3) 1) 0 ≤ 1) :=
  ⟨by decide, c8_mrp_clamp_unit_interval [0, 1] (by decide)⟩

/-- C8 counterexample: the analyzed pair `wR`, `wS` (one overlapping week)
is scored and recorded — `analyzePair` returns a signal — yet its
mean_reversion_prob is NaN (`none`), which does not lie in [0, 1]: the claim
fails for analyzed pairs with a single aligned point. -/
theorem c8_single_point_nan :
    (analyzePair tkA tkB wR wS).isSome = true ∧
    mrpValOf (spreadOf (alignPair wR wS)) = none := by
  constructor
  · norm_num [analyzePair, alignPair, wR, wS, spreadOf, classify, isMax, isMin,
      corrSqOf, zSqOf, sampleVar, meanOf, sqDevSum, corrNum, corrDen2,
      listMax, listMin, listLast, series1Of, series2Of, abs_of_pos, abs_of_nonneg]
  · norm_num [mrpValOf, zValOf, zSqOf, sampleVar, alignPair, wR, wS, spreadOf]

/-! ### C1: pairs with NaN correlation are not excluded from ranking -/

/-- C1 (the code, against the claim): the pair `wR`, `wS` overlaps on exactly
one weekly date, so its correlation is NaN (fewer than 2 aligned points) and
its total score is NaN; the spec requires such a pair to be excluded from
scoring and ranking, but the code still classifies it (`is_max` fires on a
single point), records it, and the final ranked signal list contains it —
with NaN (`none`) correlation, z-score and total score. -/
theorem c1_nan_corr_pair_is_ranked :
    (analyzeTickerPairs [(tkA, some wR), (tkB, some wS)]).pairSignals =
      [⟨tkA, tkB, maxLabel, none, none, 0, 0, tkB, tkA⟩] ∧
    scoreVal ⟨tkA, tkB, maxLabel, none, none, 0, 0, tkB, tkA⟩ = none := by
  have h1 : analyzePair tkA tkB wR wS =
      some ⟨tkA, tkB, maxLabel, none, none, 0, 0, tkB, tkA⟩ := by
    norm_num [analyzePair, alignPair, wR, wS, spreadOf, classify, isMax, isMin,
      corrSqOf, zSqOf, sampleVar, meanOf, sqDevSum, corrNum, corrDen2,
      listMax, listMin, listLast, series1Of, series2Of, abs_of_pos, abs_of_nonneg]
  have hs : scanPairs [(tkA, some wR), (tkB, some wS)] =
      [⟨tkA, tkB, maxLabel, none, none, 0, 0, tkB, tkA⟩] := by
    simp [scanPairs, combinations, h1]
  constructor
  · simp only [analyzeTickerPairs]
    rw [hs]
    rfl
  · rfl

/-! ### C7: tally sums -/

theorem sum_map_add_counts (d : List String) (f g : String → ℕ) :
    (d.map (fun t => f t + g t)).sum = (d.map f).sum + (d.map g).sum := by
  induction d with
  | nil => rfl
  | cons b d ih =>
    simp only [List.map_cons, List.sum_cons, ih]
    omega

theorem sum_map_ite_single {d : List String} {a : String} (hnd : d.Nodup) (ha : a ∈ d) :
    (d.map (fun t => if a = t then 1 else 0)).sum = 1 := by
  induction d with
  | nil => cases ha
  | cons b d ih =>
    rcases List.mem_cons.mp ha with rfl | ha'
    · have hnotin : a ∉ d := (List.nodup_cons.mp hnd).1
      have hz : (d.map (fun t => if a = t then 1 else 0)).sum = 0 := by
        apply List.sum_eq_zero
        intro y hy
        simp only [List.mem_map] at hy
        obtain ⟨x, hx, rfl⟩ := hy
        rw [if_neg (fun h : a = x => hnotin (by rw [h]; exact hx))]
      simp [hz]
    · have hb : ¬ a = b := fun h => (List.nodup_cons.mp hnd).1 (h ▸ ha')
      simp only [List.map_cons, List.sum_cons, if_neg hb]
      rw [ih (List.nodup_cons.mp hnd).2 ha']

theorem counts_sum (l : List String) (d : List String) (hnd : d.Nodup)
    (hmem : ∀ x ∈ l, x ∈ d) : (d.map (fun t => l.count t)).sum = l.length := by
  induction l with
  | nil => simp
  | cons a l ih =>
    have hd : ∀ x ∈ l, x ∈ d := fun x hx => hmem x (by simp [hx])
    calc (d.map (fun t => (a :: l).count t)).sum
        = (d.map (fun t => l.count t + if a = t then 1 else 0)).sum := by
          simp only [List.count_cons, beq_iff_eq]
      _ = (d.map (fun t => l.count t)).sum +
            (d.map (fun t => if a = t then 1 else 0)).sum := sum_map_add_counts d _ _
      _ = l.length + 1 := by rw [ih hd, sum_map_ite_single hnd (hmem a (by simp))]
      _ = (a :: l).length := by simp

theorem tally_counts_sum (l : List String) :
    ((tally l).map (fun p => p.2)).sum = l.length := by
  unfold tally
  rw [List.map_map]
  exact counts_sum l l.dedup l.nodup_dedup (fun x hx => List.mem_dedup.mpr hx)

theorem insertDesc_perm {α : Type} (gt : α → α → Prop) (dec : ∀ x y, Decidable (gt x y))
    (x : α) (l : List α) : List.Perm (insertDesc gt dec x l) (x :: l) := by
  induction l with
  | nil => exact List.Perm.refl _
  | cons y l ih =>
    unfold insertDesc
    by_cases h : gt y x
    · rw [if_pos h]
      exact (ih.cons y).trans (List.Perm.swap x y l)
    · rw [if_neg h]

theorem sortDesc_perm {α : Type} (gt : α → α → Prop) (dec : ∀ x y, Decidable (gt x y))
    (l : List α) : List.Perm (sortDesc gt dec l) l := by
  induction l with
  | nil => exact List.Perm.refl _
  | cons x l ih =>
    exact (insertDesc_perm gt dec x (sortDesc gt dec l)).trans (ih.cons x)

/-- C7: after processing all pairs, with N generated signals the long tally
counts sum to N and the short tally counts sum to N — every signal
contributes exactly one long increment and one short increment (and the
ranked list also has exactly N entries). -/
theorem c7_tally_sums (data : List FetchResult) :
    ((analyzeTickerPairs data).longs.map (fun p => p.2)).sum = (scanPairs data).length ∧
    ((analyzeTickerPairs data).shorts.map (fun p => p.2)).sum = (scanPairs data).length ∧
    (analyzeTickerPairs data).pairSignals.length = (scanPairs data).length := by
  refine ⟨?_, ?_, ?_⟩
  · simp only [analyzeTickerPairs, sortTally]
    rw [((sortDesc_perm tallyGT _ _).map (fun p : String × ℕ => p.2)).sum_eq,
      tally_counts_sum, List.length_map]
  · simp only [analyzeTickerPairs, sortTally]
    rw [((sortDesc_perm tallyGT _ _).map (fun p : String × ℕ => p.2)).sum_eq,
      tally_counts_sum, List.length_map]
  · simp only [analyzeTickerPairs, rankSignals]
    exact (sortDesc_perm sortGT _ _).length_eq

/-! ### C5: the ranked list is a stable descending sort by total score -/

theorem scoreVal_isSome_of (sig : PairSignal) (hc : sig.corrSq.isSome)
    (hz : sig.zSq.isSome) : ∃ a, scoreVal sig = some a := by
  obtain ⟨c, hc⟩ := Option.isSome_iff_exists.mp hc
  obtain ⟨z, hz⟩ := Option.isSome_iff_exists.mp hz
  refine ⟨|ssqrt c| * 2 + max (min (1 - |ssqrt z| / 3) 1) 0 * 3 + |ssqrt z| * 1, ?_⟩
  simp [scoreVal, scoreValOf, hc, hz]

theorem scoreGE_of_sortGT {x y : PairSignal} (h : sortGT x y) : scoreGE x y := by
  obtain ⟨a, b, ha, hb, hlt⟩ := h
  exact ⟨a, b, ha, hb, le_of_lt hlt⟩

theorem scoreGE_of_not_sortGT {x y : PairSignal} (hx : ∃ a, scoreVal x = some a)
    (hy : ∃ b, scoreVal y = some b) (h : ¬ sortGT y x) : scoreGE x y := by
  obtain ⟨a, ha⟩ := hx
  obtain ⟨b, hb⟩ := hy
  refine ⟨a, b, ha, hb, ?_⟩
  by_contra hlt
  exact h ⟨b, a, hb, ha, not_le.mp hlt⟩

theorem scoreGE_trans_defined {x y z : PairSignal} (hxy : scoreGE x y)
    (hyz : scoreGE y z) : scoreGE x z := by
  obtain ⟨a, b, ha, hb, hba⟩ := hxy
  obtain ⟨b', c, hb', hc, hcb⟩ := hyz
  rw [hb] at hb'
  have hbb : b = b' := Option.some.inj hb'
  exact ⟨a, c, ha, hc, le_trans (hbb ▸ hcb) hba⟩

theorem insertDesc_sorted (dec : ∀ a b : PairSignal, Decidable (sortGT a b))
    {x : PairSignal} {l : List PairSignal}
    (hx : ∃ a, scoreVal x = some a) (hl : ∀ y ∈ l, ∃ a, scoreVal y = some a)
    (hs : List.Sorted scoreGE l) :
    List.Sorted scoreGE (insertDesc sortGT dec x l) := by
  induction l with
  | nil => simp [insertDesc]
  | cons y l ih =>
    rw [List.sorted_cons] at hs
    obtain ⟨hy_all, hs_l⟩ := hs
    unfold insertDesc
    by_cases h : sortGT y x
    · rw [if_pos h]
      rw [List.sorted_cons]
      constructor
      · intro z hz
        have hz' := (insertDesc_perm sortGT dec x l).mem_iff.mp hz
        rcases List.mem_cons.mp hz' with rfl | hz''
        · exact scoreGE_of_sortGT h
        · exact hy_all z hz''
      · exact ih (fun z hz => hl z (List.mem_cons_of_mem y hz)) hs_l
    · rw [if_neg h]
      have hy : ∃ a, scoreVal y = some a := hl y (by simp)
      have hxy : scoreGE x y := scoreGE_of_not_sortGT hx hy h
      rw [List.sorted_cons]
      constructor
      · intro z hz
        rcases List.mem_cons.mp hz with rfl | hz'
        · exact hxy
        · exact scoreGE_trans_defined hxy (hy_all z hz')
      · exact List.sorted_cons.mpr ⟨hy_all, hs_l⟩

theorem sortDesc_sorted (dec : ∀ a b : PairSignal, Decidable (sortGT a b))
    (l : List PairSignal) (hl : ∀ y ∈ l, ∃ a, scoreVal y = some a) :
    List.Sorted scoreGE (sortDesc sortGT dec l) := by
  induction l with
  | nil => simp [sortDesc]
  | cons x l ih =>
    have heq : sortDesc sortGT dec (x :: l) =
        insertDesc sortGT dec x (sortDesc sortGT dec l) := rfl
    rw [heq]
    refine insertDesc_sorted dec (hl x (by simp)) ?_
      (ih (fun y hy => hl y (List.mem_cons_of_mem x hy)))
    intro y hy
    exact hl y (List.mem_cons_of_mem x ((sortDesc_perm sortGT dec l).mem_iff.mp hy))

theorem insertDesc_decomp {α : Type} (gt : α → α → Prop)
    (dec : ∀ x y, Decidable (gt x y)) (x : α) (l : List α) :
    ∃ l₁ l₂, l = l₁ ++ l₂ ∧ insertDesc gt dec x l = l₁ ++ x :: l₂ ∧
      ∀ y ∈ l₁, gt y x := by
  induction l with
  | nil => exact ⟨[], [], rfl, rfl, by simp⟩
  | cons y l ih =>
    by_cases h : gt y x
    · obtain ⟨l₁, l₂, he, hi, hgt⟩ := ih
      refine ⟨y :: l₁, l₂, by rw [List.cons_append, he], ?_, ?_⟩
      · unfold insertDesc
        rw [if_pos h, hi, List.cons_append]
      · intro z hz
        rcases List.mem_cons.mp hz with rfl | hz'
        · exact h
        · exact hgt z hz'
    · refine ⟨[], y :: l, rfl, ?_, by simp⟩
      unfold insertDesc
      rw [if_neg h]
      rfl

theorem filterByScore_insertDesc (dec : ∀ a b : PairSignal, Decidable (sortGT a b))
    (s : ℝ) (x : PairSignal) (l : List PairSignal) :
    filterByScore s (insertDesc sortGT dec x l) = filterByScore s (x :: l) := by
  obtain ⟨l₁, l₂, he, hi, hgt⟩ := insertDesc_decomp sortGT dec x l
  rw [hi, he]
  unfold filterByScore
  by_cases hps : scoreVal x = some s
  · have hl₁ : l₁.filter (fun z => decide (scoreVal z = some s)) = [] := by
      rw [List.filter_eq_nil_iff]
      intro y hy
      obtain ⟨a, b, ha, hb, hlt⟩ := hgt y hy
      rw [hps] at hb
      have hbs : b = s := (Option.some.inj hb).symm
      intro hdec
      have hys : scoreVal y = some s := of_decide_eq_true hdec
      rw [ha] at hys
      have has : a = s := Option.some.inj hys
      rw [has, hbs] at hlt
      exact lt_irrefl s hlt
    rw [List.filter_append, List.filter_cons, List.filter_cons,
      List.filter_append, hl₁]
    simp [hps]
  · rw [List.filter_append, List.filter_cons, List.filter_cons,
      List.filter_append]
    simp [hps]

theorem filterByScore_sortDesc (dec : ∀ a b : PairSignal, Decidable (sortGT a b))
    (s : ℝ) (l : List PairSignal) :
    filterByScore s (sortDesc sortGT dec l) = filterByScore s l := by
  induction l with
  | nil => rfl
  | cons x l ih =>
    have heq : sortDesc sortGT dec (x :: l) =
        insertDesc sortGT dec x (sortDesc sortGT dec l) := rfl
    rw [heq, filterByScore_insertDesc dec s x (sortDesc sortGT dec l)]
    unfold filterByScore at ih ⊢
    rw [List.filter_cons, List.filter_cons, ih]

/-- C5: the pipeline's final ranked list is a permutation of the
discovery-ordered signal list, sorted descending by total score, and the
sort is stable: for every score value, the subsequence of signals carrying
that score is unchanged from discovery order.  Stated under the hypothesis
that every recorded signal has a defined (non-NaN) total score — with a NaN
score (claim C1's situation) "sorted by total_score" is not meaningful. -/
theorem c5_ranking_sorted_stable (data : List FetchResult)
    (hdef : ∀ sig ∈ scanPairs data, sig.corrSq.isSome ∧ sig.zSq.isSome) :
    List.Sorted scoreGE ((analyzeTickerPairs data).pairSignals) ∧
    List.Perm ((analyzeTickerPairs data).pairSignals) (scanPairs data) ∧
    (∀ s : ℝ, filterByScore s ((analyzeTickerPairs data).pairSignals) =
      filterByScore s (scanPairs data)) := by
  have hl : ∀ sig ∈ scanPairs data, ∃ a, scoreVal sig = some a := fun sig h =>
    scoreVal_isSome_of sig (hdef sig h).1 (hdef sig h).2
  refine ⟨?_, ?_, ?_⟩
  · simp only [analyzeTickerPairs, rankSignals]
    exact sortDesc_sorted _ _ hl
  · simp only [analyzeTickerPairs, rankSignals]
    exact sortDesc_perm _ _ _
  · intro s
    simp only [analyzeTickerPairs, rankSignals]
    exact filterByScore_sortDesc _ s _

theorem c5_ranking_sorted_stable_witness :
    (∀ sig ∈ scanPairs [(tkA, some wP), (tkB, some wQ)],
      sig.corrSq.isSome ∧ sig.zSq.isSome) ∧
    (List.Sorted scoreGE ((analyzeTickerPairs [(tkA, some wP), (tkB, some wQ)]).pairSignals) ∧
    List.Perm ((analyzeTickerPairs [(tkA, some wP), (tkB, some wQ)]).pairSignals)
      (scanPairs [(tkA, some wP), (tkB, some wQ)]) ∧
    (∀ s : ℝ, filterByScore s ((analyzeTickerPairs [(tkA, some wP), (tkB, some wQ)]).pairSignals) =
      filterByScore s (scanPairs [(tkA, some wP), (tkB, some wQ)]))) := by
  have h1 : analyzePair tkA tkB wP wQ =
      some ⟨tkA, tkB, maxLabel, some (-1), some (1 / 2), 0, 3, tkB, tkA⟩ := by
    norm_num [analyzePair, alignPair, wP, wQ, spreadOf, classify, isMax, isMin,
      corrSqOf, zSqOf, sampleVar, meanOf, sqDevSum, corrNum, corrDen2,
      listMax, listMin, listLast, series1Of, series2Of, abs_of_pos, abs_of_nonneg]
  have hs : scanPairs [(tkA, some wP), (tkB, some wQ)] =
      [⟨tkA, tkB, maxLabel, some (-1), some (1 / 2), 0, 3, tkB, tkA⟩] := by
    simp [scanPairs, combinations, h1]
  have hdef : ∀ sig ∈ scanPairs [(tkA, some wP), (tkB, some wQ)],
      sig.corrSq.isSome ∧ sig.zSq.isSome := by
    intro sig hsig
    rw [hs] at hsig
    simp only [List.mem_singleton] at hsig
    subst hsig
    exact ⟨rfl, rfl⟩
  exact ⟨hdef, c5_ranking_sorted_stable _ hdef⟩

/-! ### C6: behaviour under swapping the two instruments -/

theorem ssqrt_neg (q : ℚ) : ssqrt (-q) = -(ssqrt q) := by
  rcases lt_trichotomy q 0 with h | h | h
  · have h1 : ¬(-q < 0) := not_lt.mpr (neg_nonneg.mpr (le_of_lt h))
    unfold ssqrt
    rw [if_neg h1, if_pos h]
    push_cast
    ring_nf
  · subst h
    simp [ssqrt_zero]
  · have h1 : -q < 0 := neg_neg_iff_pos.mpr h
    have h2 : ¬(q < 0) := not_lt.mpr (le_of_lt h)
    unfold ssqrt
    rw [if_pos h1, if_neg h2]
    push_cast
    ring_nf

theorem alignPair_swap (s1 s2 : Series) :
    alignPair s2 s1 = (alignPair s1 s2).map (fun p => (p.1, p.2.2, p.2.1)) := by
  induction s1, s2 using alignPair.induct with
  | case1 s2 =>
    cases s2 <;> simp [alignPair]
  | case2 hd tl =>
    simp [alignPair]
  | case3 v1 t1 d2 v2 t2 ih =>
    rw [alignPair, alignPair]
    simp [ih]
  | case4 d1 v1 t1 d2 v2 t2 hne hlt ih =>
    rw [alignPair, alignPair]
    have hne' : ¬ d2 = d1 := fun h => hne h.symm
    have hlt' : ¬ d2 < d1 := not_lt.mpr (le_of_lt hlt)
    rw [if_neg hne', if_neg hlt', if_neg hne, if_pos hlt]
    exact ih
  | case5 d1 v1 t1 d2 v2 t2 hne hlt ih =>
    rw [alignPair, alignPair]
    have hne' : ¬ d2 = d1 := fun h => hne h.symm
    have hlt' : d2 < d1 := lt_of_le_of_ne (not_lt.mp hlt) hne'
    rw [if_neg hne', if_pos hlt', if_neg hne, if_neg hlt]
    exact ih

theorem series1Of_swap (al : List (ℕ × ℚ × ℚ)) :
    series1Of (al.map (fun p => (p.1, p.2.2, p.2.1))) = series2Of al := by
  simp [series1Of, series2Of, List.map_map]

theorem series2Of_swap (al : List (ℕ × ℚ × ℚ)) :
    series2Of (al.map (fun p => (p.1, p.2.2, p.2.1))) = series1Of al := by
  simp [series1Of, series2Of, List.map_map]

theorem spreadOf_swap (al : List (ℕ × ℚ × ℚ)) :
    spreadOf (al.map (fun p => (p.1, p.2.2, p.2.1))) =
      (spreadOf al).map (fun q => -q) := by
  simp only [spreadOf, List.map_map]
  apply List.map_congr_left
  intro p hp
  simp

theorem listMax_map_neg (l : List ℚ) :
    listMax (l.map (fun q => -q)) = -(listMin l) := by
  induction l with
  | nil => simp [listMax, listMin]
  | cons x t ih =>
    cases t with
    | nil => simp [listMax, listMin]
    | cons y t' =>
      simp only [List.map_cons] at ih ⊢
      simp only [listMax, listMin]
      rw [ih, max_neg_neg]

theorem listMin_map_neg (l : List ℚ) :
    listMin (l.map (fun q => -q)) = -(listMax l) := by
  induction l with
  | nil => simp [listMax, listMin]
  | cons x t ih =>
    cases t with
    | nil => simp [listMax, listMin]
    | cons y t' =>
      simp only [List.map_cons] at ih ⊢
      simp only [listMax, listMin]
      rw [ih, min_neg_neg]

theorem listLast_map_neg (l : List ℚ) :
    listLast (l.map (fun q => -q)) = -(listLast l) := by
  induction l with
  | nil => simp [listLast]
  | cons x t ih =>
    cases t with
    | nil => simp [listLast]
    | cons y t' =>
      simp only [List.map_cons] at ih ⊢
      simp only [listLast]
      exact ih

theorem sum_map_neg_q (l : List ℚ) : (l.map (fun q => -q)).sum = -l.sum := by
  induction l with
  | nil => simp
  | cons x t ih =>
    simp only [List.map_cons, List.sum_cons, ih]
    ring

theorem meanOf_map_neg (l : List ℚ) : meanOf (l.map (fun q => -q)) = -(meanOf l) := by
  simp [meanOf, sum_map_neg_q, neg_div]

theorem sqDevSum_map_neg (l : List ℚ) : sqDevSum (l.map (fun q => -q)) = sqDevSum l := by
  unfold sqDevSum
  rw [meanOf_map_neg, List.map_map]
  congr 1
  apply List.map_congr_left
  intro x hx
  simp
  ring

theorem corrNum_swap (xs ys : List ℚ) : corrNum ys xs = corrNum xs ys := by
  unfold corrNum
  rw [← List.zip_swap xs ys, List.map_map]
  congr 1
  apply List.map_congr_left
  intro p hp
  simp [Prod.swap]
  ring

theorem corrSqOf_swap (xs ys : List ℚ) (hlen : ys.length = xs.length) :
    corrSqOf ys xs = corrSqOf xs ys := by
  unfold corrSqOf corrDen2
  rw [hlen, corrNum_swap, mul_comm (sqDevSum ys) (sqDevSum xs)]

theorem zSqOf_map_neg (l : List ℚ) :
    zSqOf (l.map (fun q => -q)) = (zSqOf l).map (fun q => -q) := by
  unfold zSqOf sampleVar
  rw [List.length_map, sqDevSum_map_neg]
  by_cases h : l.length ≤ 1
  · simp [h]
  · simp only [h, if_false]
    by_cases hv : sqDevSum l / ((l.length : ℚ) - 1) = 0
    · simp [hv]
    · simp only [hv, if_false, Option.map_some']
      rw [listLast_map_neg, meanOf_map_neg]
      congr 1
      have he : -listLast l - -meanOf l = -(listLast l - meanOf l) := by ring
      rw [he, abs_neg]
      ring

theorem optMap_neg_ssqrt (zs : Option ℚ) :
    (zs.map (fun q => -q)).map ssqrt = zs.map (fun q => -(ssqrt q)) := by
  cases zs <;> simp [ssqrt_neg]

theorem optMap_neg_abs_ssqrt (zs : Option ℚ) :
    (zs.map (fun q => -q)).map (fun q => |ssqrt q|) = zs.map (fun q => |ssqrt q|) := by
  cases zs <;> simp [ssqrt_neg, abs_neg]

theorem scoreValOf_zneg (cs zs : Option ℚ) :
    scoreValOf cs (zs.map (fun q => -q)) = scoreValOf cs zs := by
  cases cs <;> cases zs <;> simp [scoreValOf, ssqrt_neg, abs_neg]

/-- The classifier applied to the swap-negated statistics, in all four
threshold configurations. -/
theorem classify_swap_cases (t1 t2 : String) (hi lo cu : ℚ) (cs zs : Option ℚ) :
    ((classify t2 t1 (-lo) (-hi) (-cu) cs (zs.map (fun q => -q))).isSome =
      (classify t1 t2 hi lo cu cs zs).isSome) ∧
    (∀ f g, classify t1 t2 hi lo cu cs zs = some f →
      classify t2 t1 (-lo) (-hi) (-cu) cs (zs.map (fun q => -q)) = some g →
      g.corrSq = f.corrSq ∧
      g.zSq = f.zSq.map (fun q => -q) ∧
      g.zSq.map ssqrt = f.zSq.map (fun q => -(ssqrt q)) ∧
      g.zSq.map (fun q => |ssqrt q|) = f.zSq.map (fun q => |ssqrt q|) ∧
      scoreVal g = scoreVal f ∧
      (isMax hi cu = true ∧ isMin lo cu = true →
        f.signalType = maxLabel ∧ g.signalType = maxLabel ∧
        g.longPick = f.shortPick ∧ g.shortPick = f.longPick ∧
        g.risk = f.reward ∧ g.reward = f.risk) ∧
      (¬(isMax hi cu = true ∧ isMin lo cu = true) →
        g.longPick = f.longPick ∧ g.shortPick = f.shortPick ∧
        g.risk = f.risk ∧ g.reward = f.reward ∧
        (f.signalType = maxLabel ↔ g.signalType = minLabel) ∧
        (f.signalType = minLabel ↔ g.signalType = maxLabel))) := by
  by_cases hM : hi - cu ≤ 5 / 100 * |hi| <;> by_cases hm : cu - lo ≤ 5 / 100 * |lo|
  · have hg : (-lo) - (-cu) ≤ 5 / 100 * |(-lo)| := by rw [abs_neg]; linarith
    rw [classify_of_isMax hM, classify_of_isMax hg]
    refine ⟨rfl, ?_⟩
    intro f g hf hg'
    obtain rfl := Option.some.inj hf
    obtain rfl := Option.some.inj hg'
    refine ⟨rfl, rfl, optMap_neg_ssqrt zs, optMap_neg_abs_ssqrt zs,
      scoreValOf_zneg cs zs, ?_, ?_⟩
    · intro _
      exact ⟨rfl, rfl, rfl, rfl, by show -lo - -cu = cu - lo; ring,
        by show -cu - -hi = hi - cu; ring⟩
    · intro hneg
      exact absurd ⟨by simp [isMax, hM], by simp [isMin, hm]⟩ hneg
  · have hg1 : ¬((-lo) - (-cu) ≤ 5 / 100 * |(-lo)|) := by
      rw [abs_neg]
      intro hx
      exact hm (by linarith)
    have hg2 : (-cu) - (-hi) ≤ 5 / 100 * |(-hi)| := by rw [abs_neg]; linarith
    rw [classify_of_isMax hM, classify_of_isMin hg1 hg2]
    refine ⟨rfl, ?_⟩
    intro f g hf hg'
    obtain rfl := Option.some.inj hf
    obtain rfl := Option.some.inj hg'
    refine ⟨rfl, rfl, optMap_neg_ssqrt zs, optMap_neg_abs_ssqrt zs,
      scoreValOf_zneg cs zs, ?_, ?_⟩
    · rintro ⟨-, hmin⟩
      exact absurd (of_decide_eq_true hmin) hm
    · intro _
      refine ⟨rfl, rfl, by show -cu - -hi = hi - cu; ring,
        by show -lo - -cu = cu - lo; ring, ?_, ?_⟩
      · exact iff_of_true rfl rfl
      · exact iff_of_false (by simp [maxLabel, minLabel]) (by simp [maxLabel, minLabel])
  · have hg : (-lo) - (-cu) ≤ 5 / 100 * |(-lo)| := by rw [abs_neg]; linarith
    rw [classify_of_isMin hM hm, classify_of_isMax hg]
    refine ⟨rfl, ?_⟩
    intro f g hf hg'
    obtain rfl := Option.some.inj hf
    obtain rfl := Option.some.inj hg'
    refine ⟨rfl, rfl, optMap_neg_ssqrt zs, optMap_neg_abs_ssqrt zs,
      scoreValOf_zneg cs zs, ?_, ?_⟩
    · rintro ⟨hmax, -⟩
      exact absurd (of_decide_eq_true hmax) hM
    · intro _
      refine ⟨rfl, rfl, by show -lo - -cu = cu - lo; ring,
        by show -cu - -hi = hi - cu; ring, ?_, ?_⟩
      · exact iff_of_false (by simp [maxLabel, minLabel]) (by simp [maxLabel, minLabel])
      · exact iff_of_true rfl rfl
  · have hg1 : ¬((-lo) - (-cu) ≤ 5 / 100 * |(-lo)|) := by
      rw [abs_neg]
      intro hx
      exact hm (by linarith)
    have hg2 : ¬((-cu) - (-hi) ≤ 5 / 100 * |(-hi)|) := by
      rw [abs_neg]
      intro hx
      exact hM (by linarith)
    rw [classify_of_neither hM hm, classify_of_neither hg1 hg2]
    exact ⟨rfl, fun f g hf _ => absurd hf (by simp)⟩

/-- C6 (amended): analyzing (B, A) instead of (A, B) yields identical
correlation, |z-score|, mean-reversion probability and total score, a
z-score of opposite sign, and a signal exactly when (A, B) yields one; but
the original claim's "mirrored risk/reward and inverted recommendations"
holds only when both thresholds fire (then both orders classify AtMax with
swapped risk/reward and inverted long/short picks); whenever exactly one
threshold fires, the swapped analysis flips the signal type (AtMax↔AtMin)
and produces IDENTICAL risk, reward and long/short recommendations. -/
theorem c6_swap_mirror (t1 t2 : String) (s1 s2 : Series) :
    (analyzePair t2 t1 s2 s1).isSome = (analyzePair t1 t2 s1 s2).isSome ∧
    (∀ f g, analyzePair t1 t2 s1 s2 = some f → analyzePair t2 t1 s2 s1 = some g →
      g.corrSq = f.corrSq ∧
      g.zSq = f.zSq.map (fun q => -q) ∧
      g.zSq.map ssqrt = f.zSq.map (fun q => -(ssqrt q)) ∧
      g.zSq.map (fun q => |ssqrt q|) = f.zSq.map (fun q => |ssqrt q|) ∧
      scoreVal g = scoreVal f ∧
      (isMax (listMax (spreadOf (alignPair s1 s2))) (listLast (spreadOf (alignPair s1 s2))) = true ∧
        isMin (listMin (spreadOf (alignPair s1 s2))) (listLast (spreadOf (alignPair s1 s2))) = true →
        f.signalType = maxLabel ∧ g.signalType = maxLabel ∧
        g.longPick = f.shortPick ∧ g.shortPick = f.longPick ∧
        g.risk = f.reward ∧ g.reward = f.risk) ∧
      (¬(isMax (listMax (spreadOf (alignPair s1 s2))) (listLast (spreadOf (alignPair s1 s2))) = true ∧
          isMin (listMin (spreadOf (alignPair s1 s2))) (listLast (spreadOf (alignPair s1 s2))) = true) →
        g.longPick = f.longPick ∧ g.shortPick = f.shortPick ∧
        g.risk = f.risk ∧ g.reward = f.reward ∧
        (f.signalType = maxLabel ↔ g.signalType = minLabel) ∧
        (f.signalType = minLabel ↔ g.signalType = maxLabel))) := by
  by_cases hnil : alignPair s1 s2 = []
  · have h2 : alignPair s2 s1 = [] := by rw [alignPair_swap, hnil]; rfl
    constructor
    · simp [analyzePair, hnil, h2]
    · intro f g hf hg
      simp [analyzePair, hnil] at hf
  · have hnil2 : alignPair s2 s1 ≠ [] := by
      rw [alignPair_swap]
      exact fun h => hnil (List.map_eq_nil_iff.mp h)
    have hemp1 : (alignPair s1 s2).isEmpty = false := by
      simpa [List.isEmpty_iff] using hnil
    have hemp2 : (alignPair s2 s1).isEmpty = false := by
      simpa [List.isEmpty_iff] using hnil2
    have hsp : spreadOf (alignPair s2 s1) =
        (spreadOf (alignPair s1 s2)).map (fun q => -q) := by
      rw [alignPair_swap, spreadOf_swap]
    have hmax2 : listMax (spreadOf (alignPair s2 s1)) =
        -(listMin (spreadOf (alignPair s1 s2))) := by rw [hsp, listMax_map_neg]
    have hmin2 : listMin (spreadOf (alignPair s2 s1)) =
        -(listMax (spreadOf (alignPair s1 s2))) := by rw [hsp, listMin_map_neg]
    have hlast2 : listLast (spreadOf (alignPair s2 s1)) =
        -(listLast (spreadOf (alignPair s1 s2))) := by rw [hsp, listLast_map_neg]
    have hcorr : corrSqOf (series1Of (alignPair s2 s1)) (series2Of (alignPair s2 s1)) =
        corrSqOf (series1Of (alignPair s1 s2)) (series2Of (alignPair s1 s2)) := by
      rw [alignPair_swap, series1Of_swap, series2Of_swap]
      exact corrSqOf_swap _ _ (by simp [series1Of, series2Of])
    have hzz : zSqOf (spreadOf (alignPair s2 s1)) =
        (zSqOf (spreadOf (alignPair s1 s2))).map (fun q => -q) := by
      rw [hsp, zSqOf_map_neg]
    have hA1 : analyzePair t1 t2 s1 s2 =
        classify t1 t2 (listMax (spreadOf (alignPair s1 s2)))
          (listMin (spreadOf (alignPair s1 s2))) (listLast (spreadOf (alignPair s1 s2)))
          (corrSqOf (series1Of (alignPair s1 s2)) (series2Of (alignPair s1 s2)))
          (zSqOf (spreadOf (alignPair s1 s2))) := by
      simp only [analyzePair, hemp1, Bool.false_eq_true, if_false]
    have hA2 : analyzePair t2 t1 s2 s1 =
        classify t2 t1 (-(listMin (spreadOf (alignPair s1 s2))))
          (-(listMax (spreadOf (alignPair s1 s2))))
          (-(listLast (spreadOf (alignPair s1 s2))))
          (corrSqOf (series1Of (alignPair s1 s2)) (series2Of (alignPair s1 s2)))
          ((zSqOf (spreadOf (alignPair s1 s2))).map (fun q => -q)) := by
      simp only [analyzePair, hemp2, Bool.false_eq_true, if_false]
      rw [hmax2, hmin2, hlast2, hcorr, hzz]
    rw [hA1, hA2]
    exact classify_swap_cases t1 t2 (listMax (spreadOf (alignPair s1 s2)))
      (listMin (spreadOf (alignPair s1 s2))) (listLast (spreadOf (alignPair s1 s2)))
      (corrSqOf (series1Of (alignPair s1 s2)) (series2Of (alignPair s1 s2)))
      (zSqOf (spreadOf (alignPair s1 s2)))

/-- C6 counterexample: for `wP`, `wQ` only `is_max` fires.  Analyzing
(A, B) gives AtMax, long B / short A, risk 0, reward 3; analyzing (B, A)
gives AtMin with the SAME recommendations (long B / short A — not inverted,
since B ≠ A) and the SAME risk 0 and reward 3 (not mirrored, since
risk ≠ reward).  This refutes the claim's "mirrored (swapped) risk and
reward, and inverted long/short recommendations" for every pair. -/
theorem c6_same_recs_counterexample :
    analyzePair tkA tkB wP wQ =
      some ⟨tkA, tkB, maxLabel, some (-1), some (1 / 2), 0, 3, tkB, tkA⟩ ∧
    analyzePair tkB tkA wQ wP =
      some ⟨tkB, tkA, minLabel, some (-1), some (-(1 / 2)), 0, 3, tkB, tkA⟩ ∧
    tkB ≠ tkA ∧ (0 : ℚ) ≠ 3 := by
  refine ⟨?_, ?_, by simp [tkA, tkB], by norm_num⟩
  · norm_num [analyzePair, alignPair, wP, wQ, spreadOf, classify, isMax, isMin,
      corrSqOf, zSqOf, sampleVar, meanOf, sqDevSum, corrNum, corrDen2,
      listMax, listMin, listLast, series1Of, series2Of, abs_of_pos, abs_of_nonneg]
  · norm_num [analyzePair, alignPair, wP, wQ, spreadOf, classify, isMax, isMin,
      corrSqOf, zSqOf, sampleVar, meanOf, sqDevSum, corrNum, corrDen2,
      listMax, listMin, listLast, series1Of, series2Of, abs_of_pos, abs_of_nonneg,
      abs_of_nonpos]

theorem c6_swap_mirror_witness :
    (⟨tkB, tkA, minLabel, some (-1), some (-(1 / 2)), 0, 3, tkB, tkA⟩ : PairSignal).corrSq =
      (⟨tkA, tkB, maxLabel, some (-1), some (1 / 2), 0, 3, tkB, tkA⟩ : PairSignal).corrSq ∧
    scoreVal ⟨tkB, tkA, minLabel, some (-1), some (-(1 / 2)), 0, 3, tkB, tkA⟩ =
      scoreVal ⟨tkA, tkB, maxLabel, some (-1), some (1 / 2), 0, 3, tkB, tkA⟩ := by
  have hf : analyzePair tkA tkB wP wQ =
      some ⟨tkA, tkB, maxLabel, some (-1), some (1 / 2), 0, 3, tkB, tkA⟩ := by
    norm_num [analyzePair, alignPair, wP, wQ, spreadOf, classify, isMax, isMin,
      corrSqOf, zSqOf, sampleVar, meanOf, sqDevSum, corrNum, corrDen2,
      listMax, listMin, listLast, series1Of, series2Of, abs_of_pos, abs_of_nonneg]
  have hg : analyzePair tkB tkA wQ wP =
      some ⟨tkB, tkA, minLabel, some (-1), some (-(1 / 2)), 0, 3, tkB, tkA⟩ := by
    norm_num [analyzePair, alignPair, wP, wQ, spreadOf, classify, isMax, isMin,
      corrSqOf, zSqOf, sampleVar, meanOf, sqDevSum, corrNum, corrDen2,
      listMax, listMin, listLast, series1Of, series2Of, abs_of_pos, abs_of_nonneg,
      abs_of_nonpos]
  have h := (c6_swap_mirror tkA tkB wP wQ).2 _ _ hf hg
  exact ⟨h.1, h.2.2.2.2.1⟩

end PairScanner
